import Mathlib

/-!
Verification development for the newsletter build pipeline
(`src/build_newsletter.py`).

The Python program reads three tabular inputs (meta, points, distribution),
validates them into a domain model, normalizes a distribution breakdown to
percentages, and renders free text into paragraph/list markup with numeric
emphasis.  This file gives a shallow embedding of the functions the claims
are about and proves / refutes each claim.

Modelling conventions:
* Cell values are the strings delivered by the tabular adapter
  (`TabularSheet`, whose `iter_rows` yields tuples of strings; remote CSV
  rows are padded to a rectangle by `normalize_table_rows`).  The
  `isinstance(value, int) / isinstance(value, float)` branches of
  `parse_order` apply only to native spreadsheet cells and are outside this
  string model; this matters for claim C6 and is discussed there.
* Python floats are modelled by `ℚ`.  Every numeric literal appearing in the
  relevant code paths (amounts, percentages, `100`, tolerances) is exactly
  representable, and the claims under test concern exact comparisons or a
  1e-6 tolerance, so rational arithmetic is faithful for them.
* Python `list.sort` is a stable sort; it is modelled by a stable insertion
  sort (`stableSortBy`), which produces the same list as any stable sort.
* Fallible code (functions that `raise ValueError`) returns `Except String`.
-/

namespace Newsletter

/-- `MAX_POINTS = 10` from the source. -/
def MAX_POINTS : Nat := 10

/-- Strip leading and trailing whitespace from a character list
(Python `str.strip()`; the inputs of interest are ASCII, where
`Char.isWhitespace` and Python agree). -/
def trimChars (cs : List Char) : List Char :=
  ((cs.dropWhile Char.isWhitespace).reverse.dropWhile Char.isWhitespace).reverse

/-- `normalize_text(value)`: `str(value).strip()` for the string cells the
adapter delivers (`None` cells arrive as the empty string). -/
def normalizeText (s : String) : String := ⟨trimChars s.data⟩

/-- Decimal value of an all-digit string, as computed by Python `int(text)`
on a string that passed `text.isdigit()`. -/
def natOfDigits (cs : List Char) : Nat :=
  cs.foldl (fun n c => 10 * n + (c.toNat - 48)) 0

/-- `parse_order(value, row_number)` on a textual cell.  The source first
strips the text, fails on empty, then (for non-`int`/`float` values) requires
`text.isdigit()` and parses with `int`, finally range-checks against
`[1, MAX_POINTS]`.  Python `str.isdigit` and `Char.isDigit` agree on ASCII. -/
def parseOrder (value : String) (rowNumber : Nat) : Except String Nat :=
  let text := normalizeText value
  if text = "" then
    .error ("Missing order value at points row " ++ toString rowNumber ++ ".")
  else if !(text.data.all Char.isDigit) then
    .error ("Invalid order value \x27" ++ text ++ "\x27 at points row "
      ++ toString rowNumber ++ ".")
  else
    let parsed := natOfDigits text.data
    if parsed < 1 || parsed > MAX_POINTS then
      .error ("Order value must be between 1 and " ++ toString MAX_POINTS
        ++ " at points row " ++ toString rowNumber ++ ".")
    else
      .ok parsed

/-- Stable insertion of `x` into `l`: `x` is placed before the first element
`y` with `r x y` (read `r x y` as "`x` must sort strictly before `y`"), hence
after every earlier element it ties with. -/
def insertOrdered (r : α → α → Bool) (x : α) : List α → List α
  | [] => [x]
  | y :: ys => if r x y then x :: y :: ys else y :: insertOrdered r x ys

/-- Stable insertion sort; the unique stable sort, hence the model of
Python `list.sort(key=..., reverse=...)`. -/
def stableSortBy (r : α → α → Bool) (l : List α) : List α :=
  l.foldl (fun acc x => insertOrdered r x acc) []

/-- Python `", ".join`-style joining. -/
def joinWith (sep : String) : List String → String
  | [] => ""
  | [s] => s
  | s :: rest => s ++ sep ++ joinWith sep rest

/-- One newsletter content entry (`@dataclass Point`). -/
structure Point where
  order : Nat
  title : String
  content : String
  image_path : String
  image_caption : String
  source : String
deriving DecidableEq, Repr

/-- Python `str.lower()` (ASCII headers; `Char.toLower` agrees there). -/
def lowerAscii (s : String) : String := ⟨s.data.map Char.toLower⟩

/-- Insert into a Python-`dict`-like association list: overwriting an
existing key keeps its position, a new key is appended. -/
def dictInsert (m : List (String × Nat)) (k : String) (v : Nat) :
    List (String × Nat) :=
  if m.any (fun p => p.1 = k) then
    m.map (fun p => if p.1 = k then (k, v) else p)
  else
    m ++ [(k, v)]

/-- Lookup in the association list (`mapping[key]` / `key in mapping`). -/
def dictFind (m : List (String × Nat)) (k : String) : Option Nat :=
  (m.find? (fun p => p.1 = k)).map (·.2)

/-- The header-to-column mapping built from a header row: lowercased,
trimmed header text maps to its column index; blank headers are skipped. -/
def buildHeaderMapping (headers : List String) : List (String × Nat) :=
  (headers.enum.foldl
    (fun m p =>
      let key := lowerAscii (normalizeText p.2)
      if key = "" then m else dictInsert m key p.1)
    [])

/-- `header_index_map(points_sheet)`: build the mapping and fail when a
required column is absent, naming every missing column. -/
def headerIndexMap (headers : List String) :
    Except String (List (String × Nat)) :=
  let mapping := buildHeaderMapping headers
  let required := ["order", "title", "content", "image_path", "image_caption"]
  let missing := required.filter (fun name => (dictFind mapping name).isNone)
  if missing ≠ [] then
    .error ("Missing required columns in points sheet: " ++ joinWith ", " missing)
  else
    .ok mapping

/-- `row[index]`.  The adapter guarantees a rectangular view (ragged rows are
right-padded with `""` by `normalize_table_rows`), so the default is never
consulted for a mapped column of an adapter-normalized table. -/
def getCell (row : List String) (i : Nat) : String := row.getD i ""

/-- The six normalized fields extracted from a points data row. -/
structure RowFields where
  order_text : String
  title : String
  content : String
  image_path : String
  image_caption : String
  source : String
deriving DecidableEq, Repr

/-- Field extraction of the `read_points` loop body:
`normalize_text(row[mapping[name]])`, with `source` defaulting to `""` when
the optional `source` column is absent. -/
def extractFields (mapping : List (String × Nat)) (row : List String) :
    RowFields where
  order_text := normalizeText (getCell row ((dictFind mapping "order").getD 0))
  title := normalizeText (getCell row ((dictFind mapping "title").getD 0))
  content := normalizeText (getCell row ((dictFind mapping "content").getD 0))
  image_path := normalizeText (getCell row ((dictFind mapping "image_path").getD 0))
  image_caption :=
    normalizeText (getCell row ((dictFind mapping "image_caption").getD 0))
  source :=
    match dictFind mapping "source" with
    | some i => normalizeText (getCell row i)
    | none => ""

/-- `not any([order_text, title, content, image_path, image_caption, source])`:
the row is a spacer when every recognized field is blank. -/
def RowFields.isBlank (f : RowFields) : Bool :=
  f.order_text = "" && f.title = "" && f.content = "" &&
    f.image_path = "" && f.image_caption = "" && f.source = ""

/-- Body of the `read_points` row loop: skip a fully blank row (`.ok none`),
otherwise parse the order, then require `title` and `content`. -/
def processRow (f : RowFields) (rowNumber : Nat) :
    Except String (Option Point) :=
  if f.isBlank then
    .ok none
  else
    match parseOrder f.order_text rowNumber with
    | .error e => .error e
    | .ok order =>
      if f.title = "" then
        .error ("Missing title at points row " ++ toString rowNumber ++ ".")
      else if f.content = "" then
        .error ("Missing content at points row " ++ toString rowNumber ++ ".")
      else
        .ok (some { order := order, title := f.title, content := f.content,
                    image_path := f.image_path, image_caption := f.image_caption,
                    source := f.source })

/-- The collection loop of `read_points` over the data rows
(`enumerate(..., start=2)` numbers data rows from 2). -/
def collectPoints (mapping : List (String × Nat)) :
    List (List String) → Nat → Except String (List Point)
  | [], _ => .ok []
  | row :: rest, rowNumber =>
    match processRow (extractFields mapping row) rowNumber with
    | .error e => .error e
    | .ok none => collectPoints mapping rest (rowNumber + 1)
    | .ok (some p) =>
      match collectPoints mapping rest (rowNumber + 1) with
      | .error e => .error e
      | .ok ps => .ok (p :: ps)

/-- Ascending insertion sort on `Nat` (used to model Python
`sorted(set ...)`, whose result is the ascending list of distinct values). -/
def sortNatAsc (l : List Nat) : List Nat :=
  stableSortBy (fun a b => decide (a < b)) l

/-- `sorted(set(xs))`: ascending distinct values of `xs`. -/
def sortedDistinct (l : List Nat) : List Nat := sortNatAsc l.dedup

/-- The duplicated `order` values:
`sorted({order for order in orders if orders.count(order) > 1})`. -/
def duplicateOrders (orders : List Nat) : List Nat :=
  sortedDistinct (orders.filter (fun o => decide (1 < orders.count o)))

/-- "Must sort strictly before" for the ascending point sort
(`points.sort(key=lambda item: item.order)`). -/
def pointLt (a b : Point) : Bool := decide (a.order < b.order)

/-- The tail of `read_points` after the row loop: fail on zero points, sort
ascending by `order` (stable), fail on duplicate orders naming every
duplicated value, fail when more than `MAX_POINTS` points remain. -/
def finalizePoints (pts : List Point) : Except String (List Point) :=
  if pts = [] then
    .error "No points found. Add at least 1 row in the points sheet."
  else
    let points := stableSortBy pointLt pts
    let orders := points.map (·.order)
    let duplicates := duplicateOrders orders
    if duplicates ≠ [] then
      .error ("Duplicate order values found: "
        ++ joinWith ", " (duplicates.map toString))
    else if points.length > MAX_POINTS then
      .error ("Found " ++ toString points.length ++ " points. Max allowed is "
        ++ toString MAX_POINTS
        ++ ". Delete or merge entries to keep it to 10 or fewer.")
    else
      .ok points

/-- `read_points(points_sheet)`: header row at index 0, data rows numbered
from 2.  (On an empty sheet the Python code raises `IndexError` when
indexing the header row; that uncaught-crash case is represented by an
error value.) -/
def readPoints (rows : List (List String)) : Except String (List Point) :=
  match rows with
  | [] => .error "IndexError: list index out of range"
  | headers :: dataRows =>
    match headerIndexMap headers with
    | .error e => .error e
    | .ok mapping =>
      match collectPoints mapping dataRows 2 with
      | .error e => .error e
      | .ok pts => finalizePoints pts

/-- A distribution segment (`@dataclass DistributionSegment`), with Python
`float` modelled by `ℚ`. -/
structure DistributionSegment where
  category : String
  amount_btc : ℚ
  percent : ℚ
  color : String
deriving DecidableEq, Repr

/-- `DEFAULT_DISTRIBUTION` from the source. -/
def DEFAULT_DISTRIBUTION : List (String × ℚ × String) :=
  [("Individuals", 13660000, "rgb(255, 66, 2)"),
   ("Lost Bitcoin", 1570000, "rgb(153, 153, 153)"),
   ("Funds & ETFs", 1490000, "rgb(255, 140, 90)"),
   ("Businesses", 1390000, "rgb(255, 107, 61)"),
   ("To Be Mined", 1040000, "rgb(204, 204, 204)"),
   ("Satoshi / Patoshi", 968000, "rgb(255, 200, 150)"),
   ("Governments", 432000, "rgb(255, 173, 120)"),
   ("Other Entities", 421000, "rgb(255, 227, 180)")]

/-- Parse a Python `digitpart` (`digit (["_"] digit)*` with underscores only
between digits): returns the digit characters (underscores removed) and the
unread remainder.  The caller checks that the input begins with a digit. -/
def digitPartAux : List Char → (List Char × List Char)
  | [] => ([], [])
  | c :: rest =>
    if c.isDigit then
      let (ds, r) := digitPartAux rest
      (c :: ds, r)
    else if c = '_' then
      match rest with
      | d :: r2 =>
        if d.isDigit then
          let (ds, r) := digitPartAux r2
          (d :: ds, r)
        else ([], c :: rest)
      | [] => ([], [c])
    else ([], c :: rest)

/-- A `digitpart` must start with a digit. -/
def digitPart (cs : List Char) : Option (List Char × List Char) :=
  match cs with
  | c :: _ => if c.isDigit then some (digitPartAux cs) else none
  | [] => none

def pow10 (n : Nat) : ℚ := (10 : ℚ) ^ n

/-- Apply an optional trailing exponent (`(e|E)(+|-)? digitpart`) to `base`;
the remainder must be empty or exactly a well-formed exponent. -/
def applyExponent (base : ℚ) : List Char → Option ℚ
  | [] => some base
  | e :: r2 =>
    if e = 'e' || e = 'E' then
      let sr : Bool × List Char :=
        match r2 with
        | '+' :: r => (false, r)
        | '-' :: r => (true, r)
        | _ => (false, r2)
      match digitPart sr.2 with
      | some (eds, r4) =>
        if r4 = [] then
          let k := natOfDigits eds
          some (if sr.1 then base / pow10 k else base * pow10 k)
        else none
      | none => none
    else none

/-- Python `float(text)` on already-stripped text, as a rational: optional
sign, then `digitpart [. digitpart?] | . digitpart`, then an optional
exponent.  The `inf`/`infinity`/`nan` spellings are not representable in `ℚ`
and are outside the model (no claim involves them). -/
def pyFloat? (cs : List Char) : Option ℚ :=
  let sgn : Bool × List Char :=
    match cs with
    | '+' :: r => (false, r)
    | '-' :: r => (true, r)
    | _ => (false, cs)
  let signed : ℚ → ℚ := fun v => if sgn.1 then -v else v
  match digitPart sgn.2 with
  | some (ds, rest) =>
    match rest with
    | '.' :: r2 =>
      match digitPart r2 with
      | some (fs, r3) =>
        (applyExponent ((natOfDigits ds : ℚ) + (natOfDigits fs : ℚ) / pow10 fs.length) r3).map signed
      | none => (applyExponent (natOfDigits ds : ℚ) r2).map signed
    | _ => (applyExponent (natOfDigits ds : ℚ) rest).map signed
  | none =>
    match sgn.2 with
    | '.' :: r2 =>
      match digitPart r2 with
      | some (fs, r3) =>
        (applyExponent ((natOfDigits fs : ℚ) / pow10 fs.length) r3).map signed
      | none => none
    | _ => none

/-- `parse_number(value, default)`: strip, remove every comma
(`.replace(",", "")`), return the default on empty or unparsable text;
never raises. -/
def parseNumber (value : String) (default : ℚ) : ℚ :=
  let text := (trimChars value.data).filter (fun c => !(c = ','))
  if text = [] then default
  else
    match pyFloat? text with
    | some q => q
    | none => default

/-- Sum of the segment amounts. -/
def sumAmounts (segments : List DistributionSegment) : ℚ :=
  (segments.map (·.amount_btc)).sum

/-- The denominator computed by `finalize_distribution_segments`:
`max_supply_btc if max_supply_btc > 0 else sum(amounts)`, then clamped to
`1` when not positive. -/
def distDenominator (segments : List DistributionSegment)
    (max_supply_btc : ℚ) : ℚ :=
  let denominator :=
    if max_supply_btc > 0 then max_supply_btc else sumAmounts segments
  if denominator ≤ 0 then 1 else denominator

/-- First normalization pass of `finalize_distribution_segments`: keep a
supplied positive `percent`, otherwise derive `amount / denominator * 100`. -/
def derivePercents (segments : List DistributionSegment)
    (max_supply_btc : ℚ) : List DistributionSegment :=
  let denominator := distDenominator segments max_supply_btc
  segments.map fun s =>
    { s with percent := if s.percent > 0 then s.percent
                        else s.amount_btc / denominator * 100 }

/-- The segment list just before the final sort: rescaled so the percents
total 100 whenever the pre-rescale total is positive (field order preserved,
it is a `map` of the input). -/
def preSortSegments (segments : List DistributionSegment)
    (max_supply_btc : ℚ) : List DistributionSegment :=
  let normalized := derivePercents segments max_supply_btc
  let total_percent : ℚ := (normalized.map (·.percent)).sum
  if total_percent > 0 then
    normalized.map fun s => { s with percent := s.percent / total_percent * 100 }
  else normalized

/-- "Must sort strictly before" for the descending segment sort
(`normalized.sort(key=lambda item: item.amount_btc, reverse=True)`). -/
def segLt (a b : DistributionSegment) : Bool :=
  decide (b.amount_btc < a.amount_btc)

/-- `finalize_distribution_segments(segments, max_supply_btc)`: empty in,
empty out; otherwise derive, rescale, and stable-sort descending by
`amount_btc`. -/
def finalizeDistributionSegments (segments : List DistributionSegment)
    (max_supply_btc : ℚ) : List DistributionSegment :=
  if segments = [] then []
  else stableSortBy segLt (preSortSegments segments max_supply_btc)

/-- `default_distribution_segments(max_supply_btc)`. -/
def defaultDistributionSegments (max_supply_btc : ℚ) :
    List DistributionSegment :=
  finalizeDistributionSegments
    (DEFAULT_DISTRIBUTION.map fun t =>
      { category := t.1, amount_btc := t.2.1, percent := 0, color := t.2.2 })
    max_supply_btc

/-- Header mapping of `read_distribution` (built inline in the source, with
required columns `category, amount_btc, color`). -/
def distHeaderIndexMap (headers : List String) :
    Except String (List (String × Nat)) :=
  let mapping := buildHeaderMapping headers
  let required := ["category", "amount_btc", "color"]
  let missing := required.filter (fun name => (dictFind mapping name).isNone)
  if missing ≠ [] then
    .error ("Missing required columns in distribution sheet: "
      ++ joinWith ", " missing)
  else
    .ok mapping

/-- The row loop of `read_distribution`: skip a row with blank category and
non-positive amount, fail on a blank category with positive amount, fail on
a negative amount, otherwise collect the segment (color defaulted, the
`percent` column read only when present). -/
def collectSegments (mapping : List (String × Nat)) :
    List (List String) → Except String (List DistributionSegment)
  | [] => .ok []
  | row :: rest =>
    let category := normalizeText (getCell row ((dictFind mapping "category").getD 0))
    let amount_btc := parseNumber (getCell row ((dictFind mapping "amount_btc").getD 0)) 0
    let color0 := normalizeText (getCell row ((dictFind mapping "color").getD 0))
    let color := if color0 = "" then "rgb(255, 66, 2)" else color0
    let percent :=
      match dictFind mapping "percent" with
      | some i => parseNumber (getCell row i) 0
      | none => (0 : ℚ)
    if category = "" ∧ amount_btc ≤ 0 then
      collectSegments mapping rest
    else if category = "" then
      .error "Distribution row is missing category."
    else if amount_btc < 0 then
      .error ("Distribution amount cannot be negative for category \x27"
        ++ category ++ "\x27.")
    else
      match collectSegments mapping rest with
      | .error e => .error e
      | .ok segs =>
        .ok ({ category := category, amount_btc := amount_btc,
               percent := percent, color := color } :: segs)

/-- `read_distribution(distribution_sheet, max_supply_btc)`: header row at
index 0; zero usable rows fall back to the built-in default distribution. -/
def readDistribution (rows : List (List String)) (max_supply_btc : ℚ) :
    Except String (List DistributionSegment) :=
  match rows with
  | [] => .error "IndexError: list index out of range"
  | headers :: dataRows =>
    match distHeaderIndexMap headers with
    | .error e => .error e
    | .ok mapping =>
      match collectSegments mapping dataRows with
      | .error e => .error e
      | .ok segs =>
        if segs = [] then .ok (defaultDistributionSegments max_supply_btc)
        else .ok (finalizeDistributionSegments segs max_supply_btc)

/-- Comparison definition for claim C3, phrased after the spec words:
"the reference total if it is positive, otherwise the sum of the
segments\x27 amounts, otherwise 1". -/
def specDenominator (segments : List DistributionSegment)
    (max_supply_btc : ℚ) : ℚ :=
  if 0 < max_supply_btc then max_supply_btc
  else if 0 < sumAmounts segments then sumAmounts segments
  else 1

/-- Comparison definition for claim C3, phrased after the spec words:
"each segment whose supplied `percent` is ≤ 0 gets
`percent = amount / denominator * 100` while a segment with supplied
`percent` > 0 keeps its supplied value". -/
def specDerivePercents (segments : List DistributionSegment)
    (max_supply_btc : ℚ) : List DistributionSegment :=
  segments.map fun s =>
    if s.percent ≤ 0 then
      { s with
        percent := s.amount_btc / specDenominator segments max_supply_btc * 100 }
    else s

/-! ### Numeric emphasis: executable model of `NUMBER_PATTERN`

`NUMBER_PATTERN` is
`(?<!\w)(?:\d{1,3}(?:,\d{3})+|\d+)(?:\.\d+)?(?:[kKmMbBtT%])?(?!\w)`.
A match attempt at a fixed position is a chain of independent pieces
(body alternation, optional fraction, optional suffix, lookahead), so the
backtracking engine tries total lengths in the lexicographic preference
order body-then-fraction-then-suffix (each greedy, alternative 1 before
alternative 2) and succeeds on the first whose end passes the lookahead.
The model enumerates candidate lengths in exactly that order. -/

/-- `\w` on ASCII input: letters, digits, underscore. -/
def isWordChar (c : Char) : Bool := c.isAlphanum || c = '_'

/-- The magnitude/percent suffix class `[kKmMbBtT%]`. -/
def isSuffixChar (c : Char) : Bool :=
  c = 'k' || c = 'K' || c = 'm' || c = 'M' || c = 'b' || c = 'B' ||
    c = 't' || c = 'T' || c = '%'

/-- Number of leading ASCII digits. -/
def leadingDigits : List Char → Nat
  | c :: rest => if c.isDigit then leadingDigits rest + 1 else 0
  | [] => 0

/-- Greedy count of leading `,\d{3}` groups. -/
def commaGroups : List Char → Nat
  | ',' :: a :: b :: c :: rest =>
    if a.isDigit && b.isDigit && c.isDigit then commaGroups rest + 1 else 0
  | _ => 0

/-- `[n, n-1, ..., 1]`: the repetition counts a greedy quantifier tries,
longest first. -/
def rangeDesc : Nat → List Nat
  | 0 => []
  | n + 1 => (n + 1) :: rangeDesc n

/-- Candidate lengths of `\d{1,3}(?:,\d{3})+` at the current position, in
backtracking preference order: first digits 3,2,1 (bounded by what is
there), and for each, comma groups greedy-first. -/
def alt1Candidates (cs : List Char) : List Nat :=
  ([3, 2, 1].filter (fun l1 => decide (l1 ≤ leadingDigits cs))).flatMap
    (fun l1 => (rangeDesc (commaGroups (cs.drop l1))).map (fun j => l1 + 4 * j))

/-- Candidate lengths of `\d+`, greedy. -/
def alt2Candidates (cs : List Char) : List Nat := rangeDesc (leadingDigits cs)

/-- Candidate lengths of the optional fraction `(?:\.\d+)?`: with a
fraction (greedy) first, then without. -/
def fracCandidates : List Char → List Nat
  | c :: rest =>
    if c = '.' then (rangeDesc (leadingDigits rest)).map (· + 1) ++ [0] else [0]
  | [] => [0]

/-- Candidate lengths of the optional suffix `(?:[kKmMbBtT%])?`. -/
def sufCandidates : List Char → List Nat
  | c :: _ => if isSuffixChar c then [1, 0] else [0]
  | [] => [0]

/-- Every total candidate length at the current position, in engine order. -/
def allCandidates (cs : List Char) : List Nat :=
  (alt1Candidates cs ++ alt2Candidates cs).flatMap fun b =>
    (fracCandidates (cs.drop b)).flatMap fun f =>
      (sufCandidates (cs.drop (b + f))).map fun s => b + f + s

/-- The negative lookahead `(?!\w)` against the remainder after a match. -/
def lookaheadOk (cs : List Char) : Bool :=
  match cs with
  | c :: _ => !isWordChar c
  | [] => true

/-- Length of the match starting exactly here (the lookbehind is checked by
the scanner): the first candidate, in preference order, whose end passes
the lookahead. -/
def matchLen (cs : List Char) : Option Nat :=
  (allCandidates cs).find? (fun L => lookaheadOk (cs.drop L))

/-- The negative lookbehind `(?<!\w)` against the character before the
current position (`none` at the start of the string). -/
def prevOk : Option Char → Bool
  | some p => !isWordChar p
  | none => true

/-- `NUMBER_PATTERN.finditer`: scan left to right; at a position whose
preceding character passes the lookbehind `(?<!\w)`, take the match
`(position, length)` and resume after it, else advance one character.
`prev` is the character before the current position and `pos` the current
position.  The fuel argument only serves structural recursion; it is
`length + 1` at the top, and every step consumes at least one character,
so it never runs out. -/
def scanAux : Nat → Option Char → List Char → Nat → List (Nat × Nat)
  | 0, _, _, _ => []
  | _ + 1, _, [], _ => []
  | fuel + 1, prev, c :: rest, pos =>
    if prevOk prev then
      match matchLen (c :: rest) with
      | some L =>
        (pos, L) :: scanAux fuel (some ((c :: rest).getD (L - 1) c))
          (rest.drop (L - 1)) (pos + L)
      | none => scanAux fuel (some c) rest (pos + 1)
    else
      scanAux fuel (some c) rest (pos + 1)

/-- The matches `finditer` yields on `s`, as `(start, length)` pairs. -/
def findMatches (s : String) : List (Nat × Nat) :=
  scanAux (s.data.length + 1) none s.data 0

/-- The match list is chained: every match starts at or after the running
cursor, and the cursor advances past each match — the shape `finditer`
guarantees and `emphasize_numbers` relies on. -/
def matchesChained : Nat → List (Nat × Nat) → Prop
  | _, [] => True
  | start, (i, L) :: ms => start ≤ i ∧ matchesChained (i + L) ms

/-- `html.escape(text)` (with its default `quote=True`), one character at a
time.  The Python implementation runs sequential `str.replace` passes with
`&` first; since no replacement output contains a character rewritten by a
later pass, the per-character map produces the same string. -/
def escChar (c : Char) : List Char :=
  if c = '&' then "&amp;".data
  else if c = '<' then "&lt;".data
  else if c = '>' then "&gt;".data
  else if c = '"' then "&quot;".data
  else if c = '\'' then "&#x27;".data
  else [c]

def escList (cs : List Char) : List Char := cs.flatMap escChar

def htmlEscape (s : String) : String := ⟨escList s.data⟩

/-- The accumulation loop of `emphasize_numbers`: for each match, the
escaped gap `text[start:m.start()]` then `<strong>` + escaped token +
`</strong>`; finally the escaped tail `text[start:]`. -/
def emphAux (full : List Char) (start : Nat) : List (Nat × Nat) → List Char
  | [] => escList (full.drop start)
  | (i, L) :: ms =>
    escList ((full.drop start).take (i - start))
      ++ "<strong>".data ++ escList ((full.drop i).take L) ++ "</strong>".data
      ++ emphAux full (i + L) ms

/-- `emphasize_numbers(text)`. -/
def emphasizeNumbers (s : String) : String := ⟨emphAux s.data 0 (findMatches s)⟩

/-! ### Content markup renderer (`render_content_blocks`) -/

/-- `raw.replace("\r\n", "\n")` (left-to-right, non-overlapping). -/
def replaceCRLF : List Char → List Char
  | '\r' :: '\n' :: rest => '\n' :: replaceCRLF rest
  | c :: rest => c :: replaceCRLF rest
  | [] => []

/-- Python `.split("\n")` (note `"".split("\n") == [""]`). -/
def splitNl : List Char → List (List Char)
  | [] => [[]]
  | c :: rest =>
    if c = '\n' then [] :: splitNl rest
    else
      match splitNl rest with
      | g :: gs => (c :: g) :: gs
      | [] => [[c]]

/-- The line loop of `render_content_blocks`, threading the single piece of
state `list_open`; produces the `blocks` list the source joins with
newlines.  A blank line closes an open list; a `- ` or `* ` line opens a
list if needed and emits an item (marker stripped, token-emphasized); any
other line closes an open list and emits a paragraph; at end of input an
open list is closed. -/
def blocksGo : List (List Char) → Bool → List String
  | [], listOpen => if listOpen then ["</ul>"] else []
  | l :: ls, listOpen =>
    let line := trimChars l
    if line = [] then
      (if listOpen then ["</ul>"] else []) ++ blocksGo ls false
    else if "- ".data.isPrefixOf line || "* ".data.isPrefixOf line then
      let item := emphasizeNumbers ⟨trimChars (line.drop 2)⟩
      (if listOpen then [] else ["<ul>"])
        ++ ("<li>" ++ item ++ "</li>") :: blocksGo ls true
    else
      (if listOpen then ["</ul>"] else [])
        ++ ("<p>" ++ emphasizeNumbers ⟨line⟩ ++ "</p>") :: blocksGo ls false

/-- The block list of `render_content_blocks(raw)`. -/
def renderBlocksList (raw : String) : List String :=
  blocksGo (splitNl (replaceCRLF raw.data)) false

/-- `render_content_blocks(raw)`: the blocks joined with newlines. -/
def renderContentBlocks (raw : String) : String :=
  joinWith "\n" (renderBlocksList raw)

/-- Delete every `<strong>` and `</strong>` marker, scanning left to right
(used to state claim C9; the two markers cannot overlap each other). -/
def stripStrong : List Char → List Char
  | [] => []
  | c :: rest =>
    if "</strong>".data.isPrefixOf (c :: rest) then
      stripStrong (rest.drop 8)
    else if "<strong>".data.isPrefixOf (c :: rest) then
      stripStrong (rest.drop 7)
    else
      c :: stripStrong rest
termination_by cs => cs.length
decreasing_by
  · simp; omega
  · simp; omega
  · simp

def stripStrongStr (s : String) : String := ⟨stripStrong s.data⟩

/-! ## Helper lemmas about the stable insertion sort -/

section SortLemmas

variable {α : Type _} {r : α → α → Bool}

theorem mem_insertOrdered {x a : α} {l : List α} :
    a ∈ insertOrdered r x l ↔ a = x ∨ a ∈ l := by
  induction l with
  | nil => simp [insertOrdered]
  | cons y ys ih =>
    cases hxy : r x y with
    | true => simp [insertOrdered, hxy]
    | false => simp [insertOrdered, hxy, ih]; tauto

theorem insertOrdered_perm (r : α → α → Bool) (x : α) (l : List α) :
    List.Perm (insertOrdered r x l) (x :: l) := by
  induction l with
  | nil => simp [insertOrdered]
  | cons y ys ih =>
    cases hxy : r x y with
    | true => simp [insertOrdered, hxy]
    | false =>
      simp only [insertOrdered, hxy, Bool.false_eq_true, if_false]
      exact (ih.cons y).trans (List.Perm.swap x y ys)

theorem foldl_insertOrdered_perm (r : α → α → Bool) :
    ∀ (l acc : List α),
      List.Perm (l.foldl (fun acc x => insertOrdered r x acc) acc) (acc ++ l) := by
  intro l
  induction l with
  | nil => intro acc; simp
  | cons x ls ih =>
    intro acc
    have h1 : (x :: ls).foldl (fun acc x => insertOrdered r x acc) acc
        = ls.foldl (fun acc x => insertOrdered r x acc) (insertOrdered r x acc) := by
      simp [List.foldl_cons]
    rw [h1]
    exact ((ih _).trans
      (((insertOrdered_perm r x acc).append_right ls).trans List.perm_middle.symm))

theorem stableSortBy_perm (r : α → α → Bool) (l : List α) :
    List.Perm (stableSortBy r l) l := by
  simpa using foldl_insertOrdered_perm r l []

theorem insertOrdered_pairwise
    (hasym : ∀ a b, r a b = true → r b a = false)
    (htrans : ∀ a b c, r b a = false → r c b = false → r c a = false)
    {x : α} {l : List α} (h : List.Pairwise (fun a b => r b a = false) l) :
    List.Pairwise (fun a b => r b a = false) (insertOrdered r x l) := by
  induction l with
  | nil => simp [insertOrdered]
  | cons y ys ih =>
    rcases List.pairwise_cons.mp h with ⟨hy, hys⟩
    cases hxy : r x y with
    | true =>
      simp only [insertOrdered, hxy, if_true]
      refine List.pairwise_cons.mpr ⟨?_, h⟩
      intro z hz
      rcases List.mem_cons.mp hz with rfl | hz
      · exact hasym _ _ hxy
      · exact htrans x y z (hasym _ _ hxy) (hy z hz)
    | false =>
      simp only [insertOrdered, hxy, Bool.false_eq_true, if_false]
      refine List.pairwise_cons.mpr ⟨?_, ih hys⟩
      intro z hz
      rcases mem_insertOrdered.mp hz with rfl | hz
      · exact hxy
      · exact hy z hz

theorem stableSortBy_pairwise
    (hasym : ∀ a b, r a b = true → r b a = false)
    (htrans : ∀ a b c, r b a = false → r c b = false → r c a = false)
    (l : List α) :
    List.Pairwise (fun a b => r b a = false) (stableSortBy r l) := by
  suffices h : ∀ (l acc : List α), List.Pairwise (fun a b => r b a = false) acc →
      List.Pairwise (fun a b => r b a = false)
        (l.foldl (fun acc x => insertOrdered r x acc) acc) from
    h l [] (by simp)
  intro l
  induction l with
  | nil => intro acc hacc; exact hacc
  | cons x ls ih =>
    intro acc hacc
    exact ih _ (insertOrdered_pairwise hasym htrans hacc)

end SortLemmas

theorem segLt_asym : ∀ a b, segLt a b = true → segLt b a = false := by
  intro a b h
  simp only [segLt, decide_eq_true_eq] at h
  simpa [segLt] using le_of_lt h

theorem segLt_negTrans :
    ∀ a b c, segLt b a = false → segLt c b = false → segLt c a = false := by
  intro a b c h1 h2
  simp only [segLt, decide_eq_false_iff_not, not_lt] at h1 h2 ⊢
  exact h2.trans h1

theorem filter_insertOrdered_segLt_of_eq {x : DistributionSegment}
    {l : List DistributionSegment} {q : ℚ}
    (hsort : List.Pairwise (fun a b => segLt b a = false) l)
    (hx : x.amount_btc = q) :
    (insertOrdered segLt x l).filter (fun s => decide (s.amount_btc = q)) =
      l.filter (fun s => decide (s.amount_btc = q)) ++ [x] := by
  induction l with
  | nil => simp [insertOrdered, hx]
  | cons y ys ih =>
    rcases List.pairwise_cons.mp hsort with ⟨hy, hys⟩
    cases hxy : segLt x y with
    | true =>
      simp only [insertOrdered, hxy, if_true]
      have hylt : y.amount_btc < x.amount_btc := by simpa [segLt] using hxy
      have hnil : (y :: ys).filter (fun s => decide (s.amount_btc = q)) = [] := by
        rw [List.filter_eq_nil_iff]
        intro z hz
        rcases List.mem_cons.mp hz with rfl | hz
        · simp only [decide_eq_true_eq]
          intro hzq
          rw [hzq, ← hx] at hylt
          exact lt_irrefl _ hylt
        · have hzy : z.amount_btc ≤ y.amount_btc := by
            have := hy z hz
            simpa [segLt, not_lt] using this
          simp only [decide_eq_true_eq]
          intro hzq
          rw [hzq, ← hx] at hzy
          exact absurd (lt_of_lt_of_le hylt hzy) (lt_irrefl _)
      rw [List.filter_cons_of_pos (by simp [hx]), hnil]
      simp
    | false =>
      simp only [insertOrdered, hxy, Bool.false_eq_true, if_false]
      rw [List.filter_cons, List.filter_cons, ih hys]
      split <;> simp

theorem filter_insertOrdered_segLt_of_ne {x : DistributionSegment}
    {l : List DistributionSegment} {q : ℚ} (hx : ¬ x.amount_btc = q) :
    (insertOrdered segLt x l).filter (fun s => decide (s.amount_btc = q)) =
      l.filter (fun s => decide (s.amount_btc = q)) := by
  induction l with
  | nil => simp [insertOrdered, hx]
  | cons y ys ih =>
    cases hxy : segLt x y with
    | true =>
      simp only [insertOrdered, hxy, if_true]
      rw [List.filter_cons_of_neg (by simp [hx])]
    | false =>
      simp only [insertOrdered, hxy, Bool.false_eq_true, if_false]
      rw [List.filter_cons, List.filter_cons, ih]

theorem stableSortBy_segLt_filter (l : List DistributionSegment) (q : ℚ) :
    (stableSortBy segLt l).filter (fun s => decide (s.amount_btc = q)) =
      l.filter (fun s => decide (s.amount_btc = q)) := by
  suffices h : ∀ (l acc : List DistributionSegment),
      List.Pairwise (fun a b => segLt b a = false) acc →
      (l.foldl (fun acc x => insertOrdered segLt x acc) acc).filter
          (fun s => decide (s.amount_btc = q)) =
        acc.filter (fun s => decide (s.amount_btc = q))
          ++ l.filter (fun s => decide (s.amount_btc = q)) by
    simpa [stableSortBy] using h l [] (by simp)
  intro l
  induction l with
  | nil => intro acc hacc; simp
  | cons x ls ih =>
    intro acc hacc
    rw [List.foldl_cons, ih _ (insertOrdered_pairwise segLt_asym segLt_negTrans hacc)]
    by_cases hx : x.amount_btc = q
    · rw [filter_insertOrdered_segLt_of_eq hacc hx,
        List.filter_cons_of_pos (by simp [hx])]
      simp
    · rw [filter_insertOrdered_segLt_of_ne hx,
        List.filter_cons_of_neg (by simp [hx])]

theorem pointLt_asym : ∀ a b, pointLt a b = true → pointLt b a = false := by
  intro a b h
  simp only [pointLt, decide_eq_true_eq] at h
  simpa [pointLt] using le_of_lt h

theorem pointLt_negTrans :
    ∀ a b c, pointLt b a = false → pointLt c b = false → pointLt c a = false := by
  intro a b c h1 h2
  simp only [pointLt, decide_eq_false_iff_not, not_lt] at h1 h2 ⊢
  exact h1.trans h2

/-! ## Helper lemmas about points parsing -/

theorem parseOrder_ok_bounds {t : String} {n v : Nat}
    (h : parseOrder t n = .ok v) : 1 ≤ v ∧ v ≤ MAX_POINTS := by
  simp only [parseOrder] at h
  split at h
  · exact absurd h (by simp)
  · split at h
    · exact absurd h (by simp)
    · split at h
      · exact absurd h (by simp)
      · rename_i hrange
        rw [Except.ok.injEq] at h
        subst h
        simp only [Bool.or_eq_true, decide_eq_true_eq, not_or, not_lt] at hrange
        omega

theorem processRow_ok_bounds {f : RowFields} {n : Nat} {p : Point}
    (h : processRow f n = .ok (some p)) :
    1 ≤ p.order ∧ p.order ≤ MAX_POINTS := by
  unfold processRow at h
  split at h
  · simp at h
  · cases hpo : parseOrder f.order_text n with
    | error e => rw [hpo] at h; simp at h
    | ok v =>
      rw [hpo] at h
      dsimp only at h
      split at h
      · simp at h
      · split at h
        · simp at h
        · rw [Except.ok.injEq, Option.some.injEq] at h
          have hb := parseOrder_ok_bounds hpo
          rw [← h]
          exact hb

theorem collectPoints_ok_bounds {mapping : List (String × Nat)} :
    ∀ (rows : List (List String)) (n : Nat) (pts : List Point),
      collectPoints mapping rows n = .ok pts →
      ∀ p ∈ pts, 1 ≤ p.order ∧ p.order ≤ MAX_POINTS := by
  intro rows
  induction rows with
  | nil =>
    intro n pts h p hp
    simp only [collectPoints, Except.ok.injEq] at h
    subst h
    simp at hp
  | cons row rest ih =>
    intro n pts h p hp
    simp only [collectPoints] at h
    cases hpr : processRow (extractFields mapping row) n with
    | error e => rw [hpr] at h; simp at h
    | ok o =>
      rw [hpr] at h
      cases o with
      | none => exact ih (n + 1) pts h p hp
      | some q =>
        cases hc : collectPoints mapping rest (n + 1) with
        | error e => rw [hc] at h; simp at h
        | ok ps =>
          rw [hc, Except.ok.injEq] at h
          subst h
          rcases List.mem_cons.mp hp with rfl | hp2
          · exact processRow_ok_bounds hpr
          · exact ih (n + 1) ps hc p hp2

theorem finalizePoints_ok {pts out : List Point}
    (h : finalizePoints pts = .ok out) :
    pts ≠ [] ∧ out = stableSortBy pointLt pts ∧
      duplicateOrders (out.map (·.order)) = [] ∧ out.length ≤ MAX_POINTS := by
  simp only [finalizePoints] at h
  split at h
  · simp at h
  · rename_i hne
    split at h
    · simp at h
    · rename_i hdup
      split at h
      · simp at h
      · rename_i hlen
        rw [Except.ok.injEq] at h
        subst h
        simp only [ne_eq, not_not] at hdup
        simp only [gt_iff_lt, not_lt] at hlen
        exact ⟨hne, rfl, hdup, hlen⟩

theorem nodup_of_duplicateOrders_nil {orders : List Nat}
    (h : duplicateOrders orders = []) : orders.Nodup := by
  unfold duplicateOrders sortedDistinct sortNatAsc at h
  have hperm := stableSortBy_perm (fun a b => decide (a < b))
    ((orders.filter (fun o => decide (1 < orders.count o))).dedup)
  rw [h] at hperm
  have h1 : (orders.filter (fun o => decide (1 < orders.count o))).dedup = [] :=
    hperm.symm.eq_nil
  have h2 : orders.filter (fun o => decide (1 < orders.count o)) = [] :=
    (List.dedup_eq_nil _).mp h1
  have h3 := List.filter_eq_nil_iff.mp h2
  rw [List.nodup_iff_count_le_one]
  intro a
  by_cases ha : a ∈ orders
  · have := h3 a ha
    simp only [decide_eq_true_eq, not_lt] at this
    exact this
  · rw [List.count_eq_zero_of_not_mem ha]
    omega

/-- C1: for every points table that parses successfully, the resulting list
is sorted ascending by `order`, every `order` lies in `[1, MAX_POINTS]`, no
two points share an `order`, and there are between 1 and `MAX_POINTS`
points.  (Since `readPoints` is a total function into `Except`, any input
that cannot satisfy these conditions necessarily lands in the `.error`
case.) -/
theorem C1_readPoints_invariants :
    ∀ (rows : List (List String)) (pts : List Point),
      readPoints rows = .ok pts →
      List.Pairwise (fun a b : Point => a.order ≤ b.order) pts ∧
      (∀ p ∈ pts, 1 ≤ p.order ∧ p.order ≤ MAX_POINTS) ∧
      (pts.map (·.order)).Nodup ∧
      1 ≤ pts.length ∧ pts.length ≤ MAX_POINTS := by
  intro rows pts h
  cases rows with
  | nil => simp [readPoints] at h
  | cons headers dataRows =>
    simp only [readPoints] at h
    cases hm : headerIndexMap headers with
    | error e => rw [hm] at h; simp at h
    | ok mapping =>
      rw [hm] at h
      dsimp only at h
      cases hc : collectPoints mapping dataRows 2 with
      | error e => rw [hc] at h; simp at h
      | ok raw =>
        rw [hc] at h
        dsimp only at h
        obtain ⟨hne, hout, hdup, hlen⟩ := finalizePoints_ok h
        have hperm : List.Perm pts raw := by
          rw [hout]; exact stableSortBy_perm pointLt raw
        refine ⟨?_, ?_, nodup_of_duplicateOrders_nil hdup, ?_, hlen⟩
        · have hp := stableSortBy_pairwise pointLt_asym pointLt_negTrans raw
          rw [← hout] at hp
          exact hp.imp (fun {a b} hab => by
            simpa [pointLt, not_lt] using hab)
        · intro p hp
          exact collectPoints_ok_bounds dataRows 2 raw hc p (hperm.mem_iff.mp hp)
        · have hl : pts.length = raw.length := hperm.length_eq
          rw [hl]
          cases raw with
          | nil => exact absurd rfl hne
          | cons a as => simp

/-- Witness for C1 at a concrete two-row table. -/
theorem C1_readPoints_invariants_witness :
    1 ≤ ([{ order := 1, title := "A", content := "aa", image_path := "",
            image_caption := "", source := "" },
          { order := 2, title := "B", content := "bb", image_path := "",
            image_caption := "", source := "" }] : List Point).length ∧
    ([{ order := 1, title := "A", content := "aa", image_path := "",
        image_caption := "", source := "" },
      { order := 2, title := "B", content := "bb", image_path := "",
        image_caption := "", source := "" }] : List Point).length ≤
      MAX_POINTS :=
  (C1_readPoints_invariants
    [["order", "title", "content", "image_path", "image_caption"],
     ["2", "B", "bb", "", ""],
     ["1", "A", "aa", "", ""]]
    [{ order := 1, title := "A", content := "aa", image_path := "",
       image_caption := "", source := "" },
     { order := 2, title := "B", content := "bb", image_path := "",
       image_caption := "", source := "" }]
    (by rfl)).2.2.2

/-- C8: whenever two or more parsed points share an `order` value, the
post-collection phase of `read_points` fails with the single duplicate-order
error, and the reported list contains exactly those order values that occur
more than once (all of them, not only the first). -/
theorem C8_duplicates_reported (pts : List Point)
    (h : ¬ (pts.map (·.order)).Nodup) :
    finalizePoints pts =
      .error ("Duplicate order values found: "
        ++ joinWith ", "
          ((duplicateOrders ((stableSortBy pointLt pts).map (·.order))).map
            toString)) ∧
    ∀ v : Nat,
      v ∈ duplicateOrders ((stableSortBy pointLt pts).map (·.order)) ↔
        1 < (pts.map (·.order)).count v := by
  have hne : pts ≠ [] := by
    intro hnil
    subst hnil
    simp at h
  have hperm : List.Perm ((stableSortBy pointLt pts).map (·.order))
      (pts.map (·.order)) := (stableSortBy_perm pointLt pts).map _
  have hmemiff : ∀ v : Nat,
      v ∈ duplicateOrders ((stableSortBy pointLt pts).map (·.order)) ↔
        1 < (pts.map (·.order)).count v := by
    intro v
    unfold duplicateOrders sortedDistinct sortNatAsc
    rw [(stableSortBy_perm _ _).mem_iff, List.mem_dedup, List.mem_filter]
    constructor
    · intro hv
      rw [← hperm.count_eq v]
      simpa using hv.2
    · intro hv
      have hcnt : 1 < ((stableSortBy pointLt pts).map (·.order)).count v := by
        rw [hperm.count_eq v]
        exact hv
      refine ⟨?_, by simpa using hcnt⟩
      have hpos : 0 < ((stableSortBy pointLt pts).map (·.order)).count v := by
        omega
      exact List.count_pos_iff.mp hpos
  have hdupne :
      duplicateOrders ((stableSortBy pointLt pts).map (·.order)) ≠ [] := by
    have hx : ∃ v, 1 < (pts.map (·.order)).count v := by
      by_contra hno
      push_neg at hno
      exact h (List.nodup_iff_count_le_one.mpr (fun a => by
        have := hno a
        omega))
    rcases hx with ⟨v, hv⟩
    intro hnil
    have hvmem := (hmemiff v).mpr hv
    rw [hnil] at hvmem
    simp at hvmem
  refine ⟨?_, hmemiff⟩
  simp only [finalizePoints, if_neg hne]
  rw [if_pos hdupne]

/-- Witness for C8: two points with `order = 2` fail naming `2`. -/
theorem C8_duplicates_reported_witness :
    finalizePoints
      [{ order := 2, title := "A", content := "aa", image_path := "",
         image_caption := "", source := "" },
       { order := 2, title := "B", content := "bb", image_path := "",
         image_caption := "", source := "" }] =
      .error "Duplicate order values found: 2" := by
  rw [(C8_duplicates_reported
    [{ order := 2, title := "A", content := "aa", image_path := "",
       image_caption := "", source := "" },
     { order := 2, title := "B", content := "bb", image_path := "",
       image_caption := "", source := "" }] (by decide)).1]
  rfl

/-- C6 (amended): the textual order values `"0"` and `"11"` fail with the
range-violation diagnostic carrying the row number; the textual value
`"3.5"` fails with the invalid-order-value diagnostic (the non-whole-number
diagnostic of `parse_order` is reserved for float-typed spreadsheet cells,
which the textual path never produces); and a textual order parses
successfully only when its stripped text is a digit string whose value lies
in `[1, MAX_POINTS]`. -/
theorem C6_parseOrder_diagnostics :
    (∀ n : Nat, parseOrder "0" n =
      .error ("Order value must be between 1 and " ++ toString MAX_POINTS
        ++ " at points row " ++ toString n ++ ".")) ∧
    (∀ n : Nat, parseOrder "11" n =
      .error ("Order value must be between 1 and " ++ toString MAX_POINTS
        ++ " at points row " ++ toString n ++ ".")) ∧
    (∀ n : Nat, parseOrder "3.5" n =
      .error ("Invalid order value \x273.5\x27 at points row "
        ++ toString n ++ ".")) ∧
    (∀ (t : String) (n v : Nat), parseOrder t n = .ok v →
      (normalizeText t).data.all Char.isDigit = true ∧
      v = natOfDigits (normalizeText t).data ∧ 1 ≤ v ∧ v ≤ MAX_POINTS) := by
  refine ⟨fun n => rfl, fun n => rfl, fun n => rfl, ?_⟩
  intro t n v h
  simp only [parseOrder] at h
  split at h
  · exact absurd h (by simp)
  · split at h
    · exact absurd h (by simp)
    · rename_i hdig
      split at h
      · exact absurd h (by simp)
      · rename_i hrange
        rw [Except.ok.injEq] at h
        subst h
        simp only [Bool.not_eq_true', Bool.not_eq_false] at hdig
        simp only [Bool.or_eq_true, decide_eq_true_eq, not_or, not_lt] at hrange
        exact ⟨hdig, rfl, by omega, by omega⟩

/-- Witness for C6 at the successfully parsed textual order `"7"`. -/
theorem C6_parseOrder_diagnostics_witness :
    (normalizeText "7").data.all Char.isDigit = true ∧
    7 = natOfDigits (normalizeText "7").data ∧ 1 ≤ 7 ∧ 7 ≤ MAX_POINTS :=
  C6_parseOrder_diagnostics.2.2.2 "7" 3 7 (by rfl)

/-- C6 counterexample: on the textual value `"3.5"` the error is the
invalid-order-value diagnostic, not the non-whole-number diagnostic the
claim names (that message is produced only for float-typed cells). -/
theorem C6_counterexample :
    parseOrder "3.5" 2 =
      .error "Invalid order value \x273.5\x27 at points row 2." ∧
    parseOrder "3.5" 2 ≠
      .error "Order value must be a whole number at points row 2." := by
  refine ⟨by rfl, ?_⟩
  intro hteq
  rw [show parseOrder "3.5" 2 =
    .error "Invalid order value \x273.5\x27 at points row 2." from rfl] at hteq
  have hmsg := Except.error.inj hteq
  exact absurd hmsg (by decide)

/-- Every `parse_order` error message ends with
"at points row {row_number}." (so it carries the row number). -/
theorem parseOrder_error_rowtag {t : String} {n : Nat} {m : String}
    (h : parseOrder t n = .error m) :
    List.IsInfix ("at points row " ++ toString n ++ ".").data m.data := by
  simp only [parseOrder] at h
  split at h
  · rw [Except.error.injEq] at h
    subst h
    refine ⟨"Missing order value ".data, [], ?_⟩
    simp only [String.data_append, List.append_assoc, List.append_nil]
    rfl
  · split at h
    · rw [Except.error.injEq] at h
      subst h
      refine ⟨"Invalid order value \x27".data ++ (normalizeText t).data
        ++ "\x27 ".data, [], ?_⟩
      simp only [String.data_append, List.append_assoc, List.append_nil]
      rfl
    · split at h
      · rw [Except.error.injEq] at h
        subst h
        refine ⟨"Order value must be between 1 and ".data
          ++ (toString MAX_POINTS).data ++ " ".data, [], ?_⟩
        simp only [String.data_append, List.append_assoc, List.append_nil]
        rfl
      · exact absurd h (by simp)

/-- C7 (amended): a fully blank row is silently skipped; a non-blank row
with an empty `title` or `content` always fails with an error carrying the
row number; the error names the missing field (title checked before
content) precisely when the `order` value parses — an invalid order takes
precedence and its diagnostic is reported instead. -/
theorem C7_blank_skip_and_missing_fields (f : RowFields) (n : Nat) :
    (f.isBlank = true → processRow f n = .ok none) ∧
    (f.isBlank = false → (f.title = "" ∨ f.content = "") →
      ∃ msg, processRow f n = .error msg ∧
        List.IsInfix ("at points row " ++ toString n ++ ".").data msg.data) ∧
    (f.isBlank = false → ∀ v : Nat, parseOrder f.order_text n = .ok v →
      (f.title = "" →
        processRow f n =
          .error ("Missing title at points row " ++ toString n ++ ".")) ∧
      (f.title ≠ "" → f.content = "" →
        processRow f n =
          .error ("Missing content at points row " ++ toString n ++ "."))) := by
  refine ⟨?_, ?_, ?_⟩
  · intro hb
    simp [processRow, hb]
  · intro hb hmissing
    simp only [processRow, hb, Bool.false_eq_true, if_false]
    cases hpo : parseOrder f.order_text n with
    | error e =>
      exact ⟨e, rfl, parseOrder_error_rowtag hpo⟩
    | ok v =>
      by_cases ht : f.title = ""
      · refine ⟨"Missing title at points row " ++ toString n ++ ".",
          by simp [ht], ?_⟩
        refine ⟨"Missing title ".data, [], ?_⟩
        simp only [String.data_append, List.append_assoc, List.append_nil]
        rfl
      · have hc : f.content = "" := by
          rcases hmissing with h1 | h1
          · exact absurd h1 ht
          · exact h1
        refine ⟨"Missing content at points row " ++ toString n ++ ".",
          by simp [ht, hc], ?_⟩
        refine ⟨"Missing content ".data, [], ?_⟩
        simp only [String.data_append, List.append_assoc, List.append_nil]
        rfl
  · intro hb v hpo
    constructor
    · intro ht
      simp [processRow, hb, hpo, ht]
    · intro ht hc
      simp [processRow, hb, hpo, ht, hc]

/-- Witness for C7: a blank row is skipped; a valid order with empty title
fails naming the title. -/
theorem C7_blank_skip_and_missing_fields_witness :
    processRow
      { order_text := "", title := "", content := "",
        image_path := "", image_caption := "", source := "" } 5 = .ok none ∧
    processRow
      { order_text := "3", title := "", content := "x",
        image_path := "", image_caption := "", source := "" } 2 =
      .error "Missing title at points row 2." := by
  have h1 := (C7_blank_skip_and_missing_fields
    { order_text := "", title := "", content := "", image_path := "",
      image_caption := "", source := "" } 5).1 rfl
  have h2 := ((C7_blank_skip_and_missing_fields
    { order_text := "3", title := "", content := "x", image_path := "",
      image_caption := "", source := "" } 2).2.2 rfl 3 rfl).1 rfl
  exact ⟨h1, h2⟩

/-- C7 counterexample: on the non-blank row with empty order text and empty
title, processing fails with the order diagnostic, which does not name the
missing `title` field. -/
theorem C7_counterexample :
    RowFields.isBlank
      { order_text := "", title := "", content := "x", image_path := "",
        image_caption := "", source := "" } = false ∧
    processRow
      { order_text := "", title := "", content := "x", image_path := "",
        image_caption := "", source := "" } 2 =
      .error "Missing order value at points row 2." ∧
    ¬ List.IsInfix "title".data "Missing order value at points row 2.".data := by
  exact ⟨rfl, rfl, by decide⟩

/-- C3: for a non-empty segment list, the denominator of
`finalize_distribution_segments` is the reference total if positive, else
the amount sum if positive, else 1; and the pre-rescale pass keeps a
supplied positive `percent` while deriving `amount / denominator * 100`
for a supplied `percent` ≤ 0 — the source computation agrees with the
spec-worded definitions. -/
theorem C3_denominator_and_derivation (segments : List DistributionSegment)
    (max_supply_btc : ℚ) (h : segments ≠ []) :
    distDenominator segments max_supply_btc =
      specDenominator segments max_supply_btc ∧
    derivePercents segments max_supply_btc =
      specDerivePercents segments max_supply_btc := by
  have hden : distDenominator segments max_supply_btc =
      specDenominator segments max_supply_btc := by
    unfold distDenominator specDenominator
    by_cases h1 : 0 < max_supply_btc
    · rw [if_pos h1, if_pos h1, if_neg (not_le.mpr h1)]
    · rw [if_neg h1, if_neg h1]
      by_cases h2 : 0 < sumAmounts segments
      · rw [if_neg (not_le.mpr h2), if_pos h2]
      · rw [if_pos (not_lt.mp h2), if_neg h2]
  refine ⟨hden, ?_⟩
  simp only [derivePercents, specDerivePercents]
  refine List.map_congr_left ?_
  intro s _
  by_cases hp : 0 < s.percent
  · rw [if_pos hp, if_neg (not_le.mpr hp)]
  · rw [if_neg hp, if_pos (not_lt.mp hp), hden]

/-- Witness for C3 at a concrete one-segment list. -/
theorem C3_denominator_and_derivation_witness :
    distDenominator
        [{ category := "A", amount_btc := 1, percent := 0, color := "c" }]
        21000000 =
      specDenominator
        [{ category := "A", amount_btc := 1, percent := 0, color := "c" }]
        21000000 ∧
    derivePercents
        [{ category := "A", amount_btc := 1, percent := 0, color := "c" }]
        21000000 =
      specDerivePercents
        [{ category := "A", amount_btc := 1, percent := 0, color := "c" }]
        21000000 :=
  C3_denominator_and_derivation _ _ (by simp)

/-- C2 (amended): whenever the pre-rescale percent total is positive (true
as soon as any segment has a positive amount or a positive supplied
percent), the normalized percentages sum to exactly 100 (hence within any
floating tolerance); and unconditionally — for every segment list and
reference total — the output is ordered by descending `amount_btc` with
equal-amount segments keeping their pre-sort (encounter) order: filtering
any amount class commutes with the sort. -/
theorem C2_normalization (segments : List DistributionSegment)
    (max_supply_btc : ℚ) :
    (0 < ((derivePercents segments max_supply_btc).map (·.percent)).sum →
      ((finalizeDistributionSegments segments max_supply_btc).map
        (·.percent)).sum = 100) ∧
    List.Pairwise (fun a b : DistributionSegment => b.amount_btc ≤ a.amount_btc)
      (finalizeDistributionSegments segments max_supply_btc) ∧
    ∀ q : ℚ,
      (finalizeDistributionSegments segments max_supply_btc).filter
          (fun s => decide (s.amount_btc = q)) =
        (preSortSegments segments max_supply_btc).filter
          (fun s => decide (s.amount_btc = q)) := by
  by_cases hne : segments = []
  · subst hne
    refine ⟨?_, ?_, ?_⟩
    · intro h
      simp [derivePercents] at h
    · simp [finalizeDistributionSegments]
    · intro q
      simp [finalizeDistributionSegments, preSortSegments, derivePercents]
  · have hfin : finalizeDistributionSegments segments max_supply_btc =
        stableSortBy segLt (preSortSegments segments max_supply_btc) := by
      simp [finalizeDistributionSegments, hne]
    have hperm := stableSortBy_perm segLt (preSortSegments segments max_supply_btc)
    refine ⟨?_, ?_, ?_⟩
    · intro h
      rw [hfin, (hperm.map (·.percent)).sum_eq]
      simp only [preSortSegments]
      rw [if_pos h, List.map_map]
      have hcomp :
          ((fun s : DistributionSegment => s.percent) ∘ fun s =>
            { s with percent := s.percent /
                ((derivePercents segments max_supply_btc).map (·.percent)).sum
                * 100 }) =
          fun s : DistributionSegment => s.percent *
            (100 / ((derivePercents segments max_supply_btc).map
              (·.percent)).sum) := by
        funext s
        simp only [Function.comp]
        ring
      rw [hcomp, List.sum_map_mul_right]
      field_simp
    · rw [hfin]
      have hp := stableSortBy_pairwise segLt_asym segLt_negTrans
        (preSortSegments segments max_supply_btc)
      exact hp.imp (fun {a b} hab => by simpa [segLt, not_lt] using hab)
    · intro q
      rw [hfin]
      exact stableSortBy_segLt_filter _ q

/-- Witness for C2: two raw-amount segments with reference total 4. -/
theorem C2_normalization_witness :
    ((finalizeDistributionSegments
      [{ category := "A", amount_btc := 1, percent := 0, color := "c" },
       { category := "B", amount_btc := 3, percent := 0, color := "c" }]
      4).map (·.percent)).sum = 100 :=
  (C2_normalization
    [{ category := "A", amount_btc := 1, percent := 0, color := "c" },
     { category := "B", amount_btc := 3, percent := 0, color := "c" }]
    4).1 (by with_unfolding_all decide)

/-- C2 counterexample: a single accepted row with amount 0 and supplied
percent 0 derives an all-zero percent list, the rescale is skipped, and the
output percentages sum to 0 — not 100, and far outside a 1e-6 relative
tolerance. -/
theorem C2_counterexample :
    ((finalizeDistributionSegments
      [{ category := "X", amount_btc := 0, percent := 0, color := "c" }]
      21000000).map (·.percent)).sum = 0 ∧
    ¬ |((finalizeDistributionSegments
      [{ category := "X", amount_btc := 0, percent := 0, color := "c" }]
      21000000).map (·.percent)).sum - 100| ≤ (1 / 1000000) * 100 := by
  have h0 : ((finalizeDistributionSegments
      [{ category := "X", amount_btc := 0, percent := 0, color := "c" }]
      21000000).map (·.percent)).sum = 0 := by
    with_unfolding_all rfl
  refine ⟨h0, ?_⟩
  rw [h0]
  rw [abs_of_nonpos (by norm_num)]
  norm_num

/-- C10: `parse_number` never raises — whenever the stripped,
comma-stripped text fails float parsing the supplied default is returned —
and consequently a distribution row with non-blank category and the
non-numeric amount text "abc" is accepted as a segment with amount 0
rather than reported as an error. -/
theorem C10_parseNumber_total :
    (∀ (s : String) (d : ℚ),
      pyFloat? ((trimChars s.data).filter (fun c => !(c = ','))) = none →
      parseNumber s d = d) ∧
    readDistribution [["category", "amount_btc", "color"], ["X", "abc", ""]]
        21000000 =
      .ok [{ category := "X", amount_btc := 0, percent := 0,
             color := "rgb(255, 66, 2)" }] := by
  constructor
  · intro s d hnone
    simp only [parseNumber]
    split
    · rfl
    · rw [hnone]
  · with_unfolding_all rfl

/-- Witness for C10: `"abc"` does not parse, so the default 5 comes back. -/
theorem C10_parseNumber_total_witness : parseNumber "abc" 5 = 5 :=
  C10_parseNumber_total.1 "abc" 5 (by rfl)

/-! Block-string disequalities used for the C4 counting argument. -/

theorem li_block_ne_open (s : String) : ("<li>" ++ s ++ "</li>") ≠ "<ul>" := by
  intro h
  have hd := congrArg String.data h
  simp [String.data_append] at hd

theorem li_block_ne_close (s : String) :
    ("<li>" ++ s ++ "</li>") ≠ "</ul>" := by
  intro h
  have hd := congrArg String.data h
  simp [String.data_append] at hd

theorem p_block_ne_open (s : String) : ("<p>" ++ s ++ "</p>") ≠ "<ul>" := by
  intro h
  have hd := congrArg String.data h
  simp [String.data_append] at hd

theorem p_block_ne_close (s : String) : ("<p>" ++ s ++ "</p>") ≠ "</ul>" := by
  intro h
  have hd := congrArg String.data h
  simp [String.data_append] at hd

/-- Every opened list is closed: in the block list produced with pending
state `b`, the `</ul>` count exceeds the `<ul>` count by exactly the pending
open list. -/
theorem blocksGo_balance :
    ∀ (lines : List (List Char)) (b : Bool),
      (blocksGo lines b).count "</ul>" =
        (blocksGo lines b).count "<ul>" + (if b then 1 else 0) := by
  intro lines
  induction lines with
  | nil =>
    intro b
    cases b <;> simp [blocksGo]
  | cons l ls ih =>
    intro b
    simp only [blocksGo]
    split
    · cases b <;>
        simp [List.count_append, List.count_cons, ih false]
    · split
      · cases b <;>
          simp [List.count_append, List.count_cons, beq_iff_eq,
            li_block_ne_open, li_block_ne_close, ih true]
      · cases b <;>
          simp [List.count_append, List.count_cons, beq_iff_eq,
            p_block_ne_open, p_block_ne_close, ih false]

/-- C4: the example content renders as one paragraph, a list container with
exactly two items, and one paragraph, in that order, with the list opened
once and closed once; and for every input text the rendered block list
closes every list container it opens (`</ul>` and `<ul>` counts agree,
including the close forced at end of input). -/
theorem C4_render_blocks :
    renderBlocksList "Intro line\n- item one\n- item two\nClosing line" =
      ["<p>Intro line</p>", "<ul>", "<li>item one</li>", "<li>item two</li>",
       "</ul>", "<p>Closing line</p>"] ∧
    ∀ raw : String,
      (renderBlocksList raw).count "<ul>" =
        (renderBlocksList raw).count "</ul>" := by
  refine ⟨by rfl, ?_⟩
  intro raw
  have h := blocksGo_balance (splitNl (replaceCRLF raw.data)) false
  simp only [Bool.false_eq_true, if_false] at h
  rw [renderBlocksList]
  omega

/-! ## Helper lemmas about the `NUMBER_PATTERN` scanner -/

theorem rangeDesc_mem {n j : Nat} (h : j ∈ rangeDesc n) : 1 ≤ j ∧ j ≤ n := by
  induction n with
  | zero => simp [rangeDesc] at h
  | succ m ih =>
    simp only [rangeDesc, List.mem_cons] at h
    rcases h with rfl | h
    · omega
    · have := ih h
      omega

theorem allCandidates_pos {cs : List Char} {L : Nat}
    (h : L ∈ allCandidates cs) : 1 ≤ L := by
  simp only [allCandidates, List.mem_flatMap, List.mem_map] at h
  rcases h with ⟨b, hb, f, _, s, _, rfl⟩
  have hb1 : 1 ≤ b := by
    rcases List.mem_append.mp hb with hb | hb
    · simp only [alt1Candidates, List.mem_flatMap, List.mem_map,
        List.mem_filter] at hb
      rcases hb with ⟨l1, ⟨hl1, _⟩, j, hj, rfl⟩
      have := rangeDesc_mem hj
      fin_cases hl1 <;> omega
    · have := rangeDesc_mem (by simpa [alt2Candidates] using hb)
      omega
  omega

theorem matchLen_lookahead {cs : List Char} {L : Nat}
    (h : matchLen cs = some L) : lookaheadOk (cs.drop L) = true := by
  unfold matchLen at h
  have h2 := List.find?_some h
  simpa using h2

theorem matchLen_pos {cs : List Char} {L : Nat}
    (h : matchLen cs = some L) : 1 ≤ L := by
  unfold matchLen at h
  exact allCandidates_pos (List.mem_of_find?_eq_some h)

theorem scanAux_nil (fuel : Nat) (prev : Option Char) (pos : Nat) :
    scanAux fuel prev [] pos = [] := by
  cases fuel <;> rfl

/-- Every match the scanner yields starts after a non-word character (or at
position 0) and ends before a non-word character (or at end of input). -/
theorem scanAux_boundary :
    ∀ (fuel : Nat) (prev : Option Char) (cs : List Char) (pos : Nat)
      (full : List Char),
      cs = full.drop pos →
      prev = (if pos = 0 then none else full[pos - 1]?) →
      ∀ m ∈ scanAux fuel prev cs pos,
        (∀ c, full[m.1 + m.2]? = some c → isWordChar c = false) ∧
        (m.1 = 0 ∨ ∀ c, full[m.1 - 1]? = some c → isWordChar c = false) := by
  intro fuel
  induction fuel with
  | zero =>
    intro prev cs pos full _ _ m hm
    simp [scanAux] at hm
  | succ fuel ih =>
    intro prev cs pos full hcs hprev m hm
    cases cs with
    | nil => simp [scanAux] at hm
    | cons c rest =>
      have hskip : ∀ m ∈ scanAux fuel (some c) rest (pos + 1),
          (∀ c, full[m.1 + m.2]? = some c → isWordChar c = false) ∧
          (m.1 = 0 ∨ ∀ c, full[m.1 - 1]? = some c → isWordChar c = false) := by
        apply ih (some c) rest (pos + 1) full
        · rw [← List.drop_drop, ← hcs]
          rfl
        · have hc : full[pos]? = some c := by
            rw [← List.head?_drop, ← hcs]
            rfl
          simp [hc]
      simp only [scanAux] at hm
      by_cases hpk : prevOk prev = true
      · rw [if_pos hpk] at hm
        split at hm
        · rename_i L hml
          have hL1 : 1 ≤ L := matchLen_pos hml
          have hdropL : (c :: rest).drop L = full.drop (pos + L) := by
            rw [hcs, List.drop_drop]
          rcases List.mem_cons.mp hm with rfl | hm2
          · constructor
            · intro c2 hc2
              have hla := matchLen_lookahead hml
              rw [hdropL] at hla
              have hh : (full.drop (pos + L)).head? = some c2 := by
                rw [List.head?_drop]
                exact hc2
              cases hfd : full.drop (pos + L) with
              | nil => rw [hfd] at hh; simp at hh
              | cons d ds =>
                rw [hfd] at hh hla
                simp only [List.head?_cons, Option.some.injEq] at hh
                subst hh
                simpa [lookaheadOk] using hla
            · cases prev with
              | none =>
                by_cases hp0 : pos = 0
                · exact Or.inl hp0
                · refine Or.inr ?_
                  intro c2 hc2
                  rw [if_neg hp0] at hprev
                  rw [← hprev] at hc2
                  simp at hc2
              | some p =>
                refine Or.inr ?_
                intro c2 hc2
                by_cases hp0 : pos = 0
                · rw [if_pos hp0] at hprev
                  simp at hprev
                · rw [if_neg hp0] at hprev
                  rw [← hprev, Option.some.injEq] at hc2
                  subst hc2
                  simpa [prevOk] using hpk
          · cases hcs2 : rest.drop (L - 1) with
            | nil =>
              rw [hcs2, scanAux_nil] at hm2
              simp at hm2
            | cons d ds =>
              have hdrop2 : rest.drop (L - 1) = full.drop (pos + L) := by
                rw [← hdropL]
                cases L with
                | zero => omega
                | succ L0 => simp [List.drop_succ_cons]
              have hlt : L - 1 < rest.length := by
                by_contra hge
                rw [List.drop_eq_nil_of_le (by omega)] at hcs2
                exact absurd hcs2 (by simp)
              have hlen : L - 1 < (c :: rest).length := by
                simp only [List.length_cons]
                omega
              refine ih (some ((c :: rest).getD (L - 1) c))
                (rest.drop (L - 1)) (pos + L) full hdrop2 ?_ m hm2
              have h1 : (c :: rest)[L - 1]? = some ((c :: rest).getD (L - 1) c) := by
                rw [List.getElem?_eq_getElem hlen, List.getD_eq_getElem _ _ hlen]
              have h2 : full[pos + (L - 1)]? = (c :: rest)[L - 1]? := by
                rw [hcs, List.getElem?_drop]
              rw [if_neg (show ¬ pos + L = 0 by omega),
                show pos + L - 1 = pos + (L - 1) from by omega, h2, h1]
        · rename_i hml
          exact hskip m hm
      · rw [if_neg hpk] at hm
        exact hskip m hm

/-- C5: on the example input exactly the tokens `12,500` and `3.2%` are
wrapped in `<strong>` markers with everything else HTML-escaped and
unchanged; and on every input, every match the scanner emphasizes is
neither immediately preceded nor immediately followed by a word character
(so the `4` of `Q4` is never emphasized). -/
theorem C5_emphasize_boundaries :
    emphasizeNumbers "BTC rose 12,500 this week, +3.2% gain" =
      "BTC rose <strong>12,500</strong> this week, +<strong>3.2%</strong> gain" ∧
    ∀ (s : String) (m : Nat × Nat), m ∈ findMatches s →
      (∀ c, s.data[m.1 + m.2]? = some c → isWordChar c = false) ∧
      (m.1 = 0 ∨ ∀ c, s.data[m.1 - 1]? = some c → isWordChar c = false) := by
  refine ⟨by rfl, ?_⟩
  intro s m hm
  exact scanAux_boundary (s.data.length + 1) none s.data 0 s.data (by simp)
    (by simp) m hm

/-- Witness for C5: the match `(9, 6)` (the token `12,500`) of the example
is followed by the non-word character `' '` at index 15. -/
theorem C5_emphasize_boundaries_witness :
    (9, 6) ∈ findMatches "BTC rose 12,500 this week, +3.2% gain" ∧
    isWordChar ' ' = false := by
  have h := C5_emphasize_boundaries.2 "BTC rose 12,500 this week, +3.2% gain"
    (9, 6) (by decide)
  exact ⟨by decide, h.1 ' ' (by rfl)⟩

/-! ## Helper lemmas for claim C9 (stripping the emphasis markers) -/

theorem lt_not_mem_escChar (c : Char) : '<' ∉ escChar c := by
  unfold escChar
  by_cases h1 : c = '&'
  · rw [if_pos h1]; decide
  rw [if_neg h1]
  by_cases h2 : c = '<'
  · rw [if_pos h2]; decide
  rw [if_neg h2]
  by_cases h3 : c = '>'
  · rw [if_pos h3]; decide
  rw [if_neg h3]
  by_cases h4 : c = '"'
  · rw [if_pos h4]; decide
  rw [if_neg h4]
  by_cases h5 : c = '\''
  · rw [if_pos h5]; decide
  rw [if_neg h5]
  simp only [List.mem_singleton]
  exact fun h => h2 h.symm

theorem lt_not_mem_escList (cs : List Char) : '<' ∉ escList cs := by
  unfold escList
  intro h
  rcases List.mem_flatMap.mp h with ⟨c, _, hc⟩
  exact lt_not_mem_escChar c hc

theorem isPrefixOf_cons_head {a b : Char} {as bs : List Char}
    (h : (a :: as).isPrefixOf (b :: bs) = true) : a = b := by
  simp [List.isPrefixOf] at h
  exact h.1

theorem stripStrong_nil : stripStrong [] = [] := by
  rw [stripStrong]

theorem stripStrong_cons_ne {c : Char} (rest : List Char) (h : c ≠ '<') :
    stripStrong (c :: rest) = c :: stripStrong rest := by
  have hp1 : ¬ ("</strong>".data.isPrefixOf (c :: rest) = true) := fun hp =>
    h (isPrefixOf_cons_head hp).symm
  have hp2 : ¬ ("<strong>".data.isPrefixOf (c :: rest) = true) := fun hp =>
    h (isPrefixOf_cons_head hp).symm
  rw [stripStrong, if_neg hp1, if_neg hp2]

theorem stripStrong_append_no_lt {a : List Char} (h : ∀ c ∈ a, c ≠ '<')
    (b : List Char) : stripStrong (a ++ b) = a ++ stripStrong b := by
  induction a with
  | nil => simp
  | cons c as ih =>
    rw [List.cons_append, stripStrong_cons_ne _ (h c (by simp)),
      ih (fun c2 hc2 => h c2 (by simp [hc2]))]
    rfl

theorem stripStrong_no_lt {a : List Char} (h : ∀ c ∈ a, c ≠ '<') :
    stripStrong a = a := by
  have h2 := stripStrong_append_no_lt h []
  simpa [stripStrong_nil] using h2

theorem stripStrong_open (b : List Char) :
    stripStrong ("<strong>".data ++ b) = stripStrong b := by
  show stripStrong ('<' :: 's' :: 't' :: 'r' :: 'o' :: 'n' :: 'g' :: '>' :: b) =
    stripStrong b
  have hfalse : ("</strong>".data.isPrefixOf
      ('<' :: 's' :: 't' :: 'r' :: 'o' :: 'n' :: 'g' :: '>' :: b)) = false := by
    simp [List.isPrefixOf]
  have htrue : ("<strong>".data.isPrefixOf
      ('<' :: 's' :: 't' :: 'r' :: 'o' :: 'n' :: 'g' :: '>' :: b)) = true := by
    simp [List.isPrefixOf]
  rw [stripStrong, if_neg (by simp [hfalse]), if_pos htrue]
  rfl

theorem stripStrong_close (b : List Char) :
    stripStrong ("</strong>".data ++ b) = stripStrong b := by
  show stripStrong
    ('<' :: '/' :: 's' :: 't' :: 'r' :: 'o' :: 'n' :: 'g' :: '>' :: b) =
    stripStrong b
  have htrue : ("</strong>".data.isPrefixOf
      ('<' :: '/' :: 's' :: 't' :: 'r' :: 'o' :: 'n' :: 'g' :: '>' :: b)) =
      true := by
    simp [List.isPrefixOf]
  rw [stripStrong, if_pos htrue]
  rfl

theorem matchesChained_mono {s s2 : Nat} {ms : List (Nat × Nat)}
    (h : matchesChained s2 ms) (hle : s ≤ s2) : matchesChained s ms := by
  cases ms with
  | nil => trivial
  | cons m rest =>
    obtain ⟨i, L⟩ := m
    exact ⟨le_trans hle h.1, h.2⟩

theorem scanAux_chained :
    ∀ (fuel : Nat) (prev : Option Char) (cs : List Char) (pos : Nat),
      matchesChained pos (scanAux fuel prev cs pos) := by
  intro fuel
  induction fuel with
  | zero => intro prev cs pos; simp [scanAux, matchesChained]
  | succ fuel ih =>
    intro prev cs pos
    cases cs with
    | nil => simp [scanAux, matchesChained]
    | cons c rest =>
      simp only [scanAux]
      by_cases hpk : prevOk prev = true
      · rw [if_pos hpk]
        cases hml : matchLen (c :: rest) with
        | none =>
          exact matchesChained_mono (ih _ _ _) (by omega)
        | some L =>
          exact ⟨le_refl pos, ih _ _ _⟩
      · rw [if_neg hpk]
        exact matchesChained_mono (ih _ _ _) (by omega)

theorem stripStrong_emphAux (full : List Char) :
    ∀ (ms : List (Nat × Nat)) (start : Nat), matchesChained start ms →
      stripStrong (emphAux full start ms) = escList (full.drop start) := by
  intro ms
  induction ms with
  | nil =>
    intro start _
    simp only [emphAux]
    exact stripStrong_no_lt (fun c hc heq =>
      lt_not_mem_escList (full.drop start) (heq ▸ hc))
  | cons m ms ih =>
    intro start hch
    obtain ⟨i, L⟩ := m
    obtain ⟨hle, hch2⟩ := hch
    simp only [emphAux]
    rw [List.append_assoc, List.append_assoc, List.append_assoc]
    rw [stripStrong_append_no_lt (fun c hc heq =>
      lt_not_mem_escList _ (heq ▸ hc)) _]
    rw [stripStrong_open]
    rw [stripStrong_append_no_lt (fun c hc heq =>
      lt_not_mem_escList _ (heq ▸ hc)) _]
    rw [stripStrong_close]
    rw [ih (i + L) hch2]
    unfold escList
    rw [← List.flatMap_append, ← List.flatMap_append]
    congr 1
    have h2 : (full.drop start).drop (i - start) = full.drop i := by
      rw [List.drop_drop]
      congr 1
      omega
    have h4 : (full.drop i).drop L = full.drop (i + L) := by
      rw [List.drop_drop]
    calc (full.drop start).take (i - start) ++
          ((full.drop i).take L ++ full.drop (i + L))
        = (full.drop start).take (i - start) ++
          ((full.drop i).take L ++ (full.drop i).drop L) := by rw [h4]
      _ = (full.drop start).take (i - start) ++ full.drop i := by
          rw [List.take_append_drop]
      _ = (full.drop start).take (i - start) ++
          (full.drop start).drop (i - start) := by rw [h2]
      _ = full.drop start := List.take_append_drop _ _

/-- C9: deleting the `<strong>`/`</strong>` markers that numeric emphasis
inserted from its output yields exactly the HTML-escaped input: the
transformation only wraps matched tokens and never alters, drops, or
duplicates any escaped character. -/
theorem C9_strip_emphasize (s : String) :
    stripStrongStr (emphasizeNumbers s) = htmlEscape s := by
  unfold stripStrongStr emphasizeNumbers htmlEscape
  congr 1
  have hch : matchesChained 0 (findMatches s) := by
    unfold findMatches
    exact scanAux_chained _ _ _ _
  have h := stripStrong_emphAux s.data (findMatches s) 0 hch
  simpa using h

end Newsletter

/-! ## Model validation

Concrete evaluations of the embedded functions, each checked against the
behavior of the corresponding CPython construct (`re.finditer` with
`NUMBER_PATTERN`, `float(...)`, `html.escape`, and the row parsers) on the
same inputs. -/
example :
    Newsletter.emphasizeNumbers "BTC rose 12,500 this week, +3.2% gain" =
    "BTC rose <strong>12,500</strong> this week, +<strong>3.2%</strong> gain" := by
  rfl

example : Newsletter.emphasizeNumbers "Q4 and x2y" = "Q4 and x2y" := by rfl
example : Newsletter.emphasizeNumbers "a<b & 5" = "a&lt;b &amp; <strong>5</strong>" := by rfl
example : Newsletter.findMatches "1,2345" = [(0, 1), (2, 4)] := by rfl
example : Newsletter.findMatches "12k5" = [] := by rfl
example : Newsletter.findMatches "1234,567" = [(0, 4), (5, 3)] := by rfl
example : Newsletter.findMatches "70%" = [(0, 3)] := by rfl

example :
    Newsletter.renderBlocksList "Intro line\n- item one\n- item two\nClosing line" =
    ["<p>Intro line</p>", "<ul>", "<li>item one</li>", "<li>item two</li>",
     "</ul>", "<p>Closing line</p>"] := by rfl

example :
    Newsletter.renderBlocksList "- a\n\n- b" =
    ["<ul>", "<li>a</li>", "</ul>", "<ul>", "<li>b</li>", "</ul>"] := by rfl

example : Newsletter.findMatches "1,2M" = [(0, 1), (2, 2)] := by rfl
example : Newsletter.findMatches "3.5" = [(0, 3)] := by rfl
example : Newsletter.findMatches "1..2" = [(0, 1), (3, 1)] := by rfl
example : Newsletter.findMatches "12,345.67k" = [(0, 10)] := by rfl
example : Newsletter.findMatches "1,234,567" = [(0, 9)] := by rfl
example : Newsletter.findMatches "5%x" = [(0, 1)] := by rfl
example : Newsletter.findMatches "5% x" = [(0, 2)] := by rfl
example : Newsletter.findMatches ".5" = [(1, 1)] := by rfl
example : Newsletter.findMatches "2.k" = [(0, 1)] := by rfl
example : Newsletter.findMatches "007" = [(0, 3)] := by rfl
example : Newsletter.findMatches "1,000,00" = [(0, 5), (6, 2)] := by rfl
example : Newsletter.findMatches "9,123k2" = [(0, 1)] := by rfl
example : Newsletter.findMatches "12,34" = [(0, 2), (3, 2)] := by rfl
example : Newsletter.findMatches "1," = [(0, 1)] := by rfl
example : Newsletter.findMatches "3.2%" = [(0, 4)] := by rfl
example : Newsletter.findMatches "a_1 b" = [] := by rfl
example : Newsletter.findMatches "_1" = [] := by rfl
example : Newsletter.findMatches "1_" = [] := by rfl
example : Newsletter.findMatches "%5" = [(1, 1)] := by rfl
example : Newsletter.findMatches "12.5.3" = [(0, 4), (5, 1)] := by rfl
example : Newsletter.findMatches "x 1,234.5M y" = [(2, 8)] := by rfl

example : Newsletter.pyFloat? "+3".data = some 3 := by with_unfolding_all rfl
example : Newsletter.pyFloat? "3..".data = none := by rfl
example : Newsletter.pyFloat? "1_.5".data = none := by rfl
example : Newsletter.pyFloat? "1e5_0".data = some ((10:ℚ)^50) := by
  with_unfolding_all rfl
example : Newsletter.pyFloat? "1 2".data = none := by rfl
example : Newsletter.pyFloat? "-.5".data = some (-(1/2)) := by
  with_unfolding_all rfl
example : Newsletter.pyFloat? "5_0.1_2".data = some (1253/25) := by
  with_unfolding_all rfl
example : Newsletter.pyFloat? "1e".data = none := by rfl
example : Newsletter.pyFloat? "e5".data = none := by rfl
example : Newsletter.pyFloat? ".".data = none := by rfl
example : Newsletter.pyFloat? "00.5".data = some (1/2) := by
  with_unfolding_all rfl
example : Newsletter.pyFloat? "1.5E+2".data = some 150 := by
  with_unfolding_all rfl
example : Newsletter.pyFloat? "1.5e-2".data = some (3/200) := by
  with_unfolding_all rfl
example : Newsletter.parseNumber "abc" 0 = 0 := by rfl
example : Newsletter.parseNumber " 12,500 " 0 = 12500 := by rfl
example : Newsletter.parseNumber "3.5" 0 = 7/2 := by with_unfolding_all rfl
example : Newsletter.parseNumber "-1.5e2" 0 = -150 := by with_unfolding_all rfl
example : Newsletter.parseNumber "1_000" 0 = 1000 := by rfl
example : Newsletter.parseNumber "1__0" 7 = 7 := by rfl
example : Newsletter.parseNumber ".5" 0 = 1/2 := by with_unfolding_all rfl
example : Newsletter.parseNumber "1." 0 = 1 := by rfl
example : Newsletter.parseNumber "1.e2" 0 = 100 := by with_unfolding_all rfl
example : Newsletter.parseNumber "" 3 = 3 := by rfl
example :
    Newsletter.readDistribution
      [["category", "amount_btc", "color"], ["X", "abc", ""]] 21000000 =
    .ok [{ category := "X", amount_btc := 0, percent := 0,
           color := "rgb(255, 66, 2)" }] := by with_unfolding_all rfl
example :
    Newsletter.finalizeDistributionSegments
      [{ category := "A", amount_btc := 1, percent := 0, color := "c" },
       { category := "B", amount_btc := 3, percent := 0, color := "c" }]
      4 =
    [{ category := "B", amount_btc := 3, percent := 75, color := "c" },
     { category := "A", amount_btc := 1, percent := 25, color := "c" }] := by
  with_unfolding_all rfl
example :
    Newsletter.readPoints
      [["order", "title", "content", "image_path", "image_caption"],
       ["2", "B", "bb", "", ""],
       ["1", "A", "aa", "", ""]] =
    .ok [{ order := 1, title := "A", content := "aa", image_path := "",
           image_caption := "", source := "" },
         { order := 2, title := "B", content := "bb", image_path := "",
           image_caption := "", source := "" }] := by rfl

example :
    Newsletter.readPoints
      [["order", "title", "content", "image_path", "image_caption"],
       ["2", "B", "bb", "", ""],
       ["2", "A", "aa", "", ""]] =
    .error "Duplicate order values found: 2" := by rfl

example :
    Newsletter.readPoints
      [["order", "title", "content", "image_path", "image_caption"],
       ["", "", "", "", ""],
       ["1", "A", "aa", "", ""]] =
    .ok [{ order := 1, title := "A", content := "aa", image_path := "",
           image_caption := "", source := "" }] := by rfl
example : Newsletter.parseOrder "3" 2 = .ok 3 := by rfl
example : Newsletter.parseOrder "11" 2 =
    .error "Order value must be between 1 and 10 at points row 2." := by rfl
example : Newsletter.parseOrder "3.5" 2 =
    .error "Invalid order value \x273.5\x27 at points row 2." := by rfl
example : Newsletter.parseOrder " " 4 =
    .error "Missing order value at points row 4." := by rfl
example : Newsletter.stableSortBy (fun a b => decide (a < b)) [3, 1, 2] = [1, 2, 3] := by rfl
